import Mathlib

/-!
Verification of the rainchanel task-queue engine.

This file gives a shallow embedding, in Lean, of the queue engine of the
rainchanel repository: the relational state (tasks, task_audit rows, results),
the storage-adapter primitives of `internal/repository/task_audit_repository.go`,
the service operations of the task service (`PublishTask`, `ConsumeTask`,
`PublishResult`, `PublishFailure`, `ReclaimStaleTasks`), and the pure argument
validation of the validator (`convertArgsToSlice`, `validateArgType`,
`validateFunctionSignature`).

Modelling conventions:
* machine integers (`uint`, Go `int` counters that are non-negative in every
  reachable state) are `Nat`;
* SQL timestamps are `Nat` instants; nullable columns are `Option`;
* a table is a `List` of rows in insertion order; autoincrement primary keys
  are explicit `next…Id` counters on the state;
* a GORM `Updates` keyed by a `WHERE` clause is a conditional `List.map`;
  `First` with an `Order` clause is a minimum under the lexicographic key
  (order column, primary key), which is how GORM resolves `First` after an
  explicit `Order`;
* `encoding/json` values are a `Json` inductive with integer numerals
  (floating-point numerals are outside the model); `json.Marshal` /
  `json.Unmarshal` are an executable printer and parser over that type;
* storage-level failures (connection loss, constraint errors) are outside the
  pure model: every storage primitive succeeds.
-/

namespace Rainchanel

/-- Lifecycle status of a task audit row (`database.TaskStatus`). -/
inductive TaskStatus where
  | pending
  | processing
  | completed
  | failed
deriving DecidableEq, Repr

/-- JSON values as decoded by `encoding/json` into `interface\x7b\x7d`:
`nil`, `bool`, numbers (restricted to integers in this model), `string`,
`[]interface\x7b\x7d` and `map[string]interface\x7b\x7d`. -/
inductive Json where
  | null
  | bool (b : Bool)
  | num (n : Int)
  | str (s : String)
  | arr (elems : List Json)
  | obj (fields : List (String × Json))

/-- A row of the `tasks` table (`database.Task`); `args` is JSON text. -/
structure Task where
  id : Nat
  wasmModule : String
  func : String
  args : String
  createdBy : Nat
deriving DecidableEq, Repr

/-- A row of the `task_audit` table (`database.TaskAudit`).  The repository
and service code and the test suite read and write `retry_count` and
`error_msg`, so the row carries both. -/
structure TaskAudit where
  id : Nat
  taskId : Nat
  status : TaskStatus
  processedBy : Option Nat
  publishedAt : Nat
  consumedAt : Option Nat
  completedAt : Option Nat
  retryCount : Nat
  errorMsg : String
deriving DecidableEq, Repr

/-- A row of the `results` table (`database.Result`). -/
structure ResultRow where
  id : Nat
  taskId : Nat
  createdBy : Nat
  processedBy : Nat
  result : String
  consumed : Bool
deriving DecidableEq, Repr

/-- The relational store shared by all operations. -/
structure DB where
  tasks : List Task
  audits : List TaskAudit
  results : List ResultRow
  nextTaskId : Nat
  nextAuditId : Nat
  nextResultId : Nat
deriving DecidableEq, Repr

/-- The empty store with autoincrement counters at 1. -/
def DB.empty : DB := ⟨[], [], [], 1, 1, 1⟩

/-- Errors surfaced by the task service (`service/task.go`). -/
inductive TaskError where
  | validationFailed
  | noTasksAvailable
  | taskNotFound
  | invalidCreatedBy
  | internalError
deriving DecidableEq, Repr

/-- The task shape exchanged with the HTTP layer (`dto.Task`); `args` is the
decoded JSON value. -/
structure DtoTask where
  id : Nat
  wasmModule : String
  func : String
  args : Json
  createdBy : Nat

/- ### JSON printer (model of `json.Marshal`) -/

/-- Escape a character inside a JSON string literal. -/
def escapeChar (c : Char) : List Char :=
  if c = '"' then ['\\', '"']
  else if c = '\\' then ['\\', '\\']
  else [c]

/-- Escape a string for embedding in JSON text. -/
def jsonEscape (s : String) : String :=
  String.mk ((s.toList.map escapeChar).flatten)

/-- The `\x7b` character. -/
def openBraceChar : Char := Char.ofNat 123

/-- The `\x7d` character. -/
def closeBraceChar : Char := Char.ofNat 125

mutual

/-- Model of `json.Marshal` on decoded JSON values. -/
def jsonMarshal : Json → String
  | .null => "null"
  | .bool true => "true"
  | .bool false => "false"
  | .num n => toString n
  | .str s => "\"" ++ jsonEscape s ++ "\""
  | .arr xs => "[" ++ marshalElems xs ++ "]"
  | .obj fs => String.mk [openBraceChar] ++ marshalFields fs ++ String.mk [closeBraceChar]

/-- Comma-separated marshalling of array elements. -/
def marshalElems : List Json → String
  | [] => ""
  | [x] => jsonMarshal x
  | x :: y :: xs => jsonMarshal x ++ "," ++ marshalElems (y :: xs)

/-- Comma-separated marshalling of object fields. -/
def marshalFields : List (String × Json) → String
  | [] => ""
  | [(k, v)] => "\"" ++ jsonEscape k ++ "\":" ++ jsonMarshal v
  | (k, v) :: f :: fs =>
      "\"" ++ jsonEscape k ++ "\":" ++ jsonMarshal v ++ "," ++ marshalFields (f :: fs)

end

/- ### JSON parser (model of `json.Unmarshal`) -/

/-- JSON insignificant whitespace. -/
def isWs (c : Char) : Bool :=
  c = ' ' || c = '\t' || c = '\n' || c = '\r'

/-- Drop leading whitespace. -/
def skipWs : List Char → List Char
  | [] => []
  | c :: cs => if isWs c then skipWs cs else c :: cs

/-- Split a leading run of decimal digits. -/
def spanDigits : List Char → List Char × List Char
  | [] => ([], [])
  | c :: cs =>
      if c.isDigit then
        let (ds, r) := spanDigits cs
        (c :: ds, r)
      else ([], c :: cs)

/-- Numeric value of a digit run. -/
def digitsVal (ds : List Char) : Nat :=
  ds.foldl (fun n c => n * 10 + (c.toNat - 48)) 0

/-- Parse an integer numeral (optional minus sign followed by digits). -/
def parseNumber (cs : List Char) : Option (Int × List Char) :=
  match cs with
  | '-' :: r =>
      let (ds, rest) := spanDigits r
      if ds.isEmpty then none else some (-(Int.ofNat (digitsVal ds)), rest)
  | _ =>
      let (ds, rest) := spanDigits cs
      if ds.isEmpty then none else some (Int.ofNat (digitsVal ds), rest)

/-- Parse the body of a string literal after the opening quote, handling the
escapes the printer emits. -/
def parseStringBody : List Char → Option (List Char × List Char)
  | [] => none
  | '"' :: rest => some ([], rest)
  | '\\' :: e :: rest =>
      let ec : Option Char :=
        if e = '"' then some '"'
        else if e = '\\' then some '\\'
        else if e = 'n' then some '\n'
        else if e = 't' then some '\t'
        else if e = 'r' then some '\r'
        else none
      match ec, parseStringBody rest with
      | some c, some (s, r) => some (c :: s, r)
      | _, _ => none
  | c :: rest =>
      match parseStringBody rest with
      | some (s, r) => some (c :: s, r)
      | none => none

mutual

/-- Fuel-indexed JSON value parser. -/
def parseVal : Nat → List Char → Option (Json × List Char)
  | 0, _ => none
  | Nat.succ fuel, cs =>
      match skipWs cs with
      | [] => none
      | c :: rest =>
          if c = 'n' then
            match rest with
            | 'u' :: 'l' :: 'l' :: r => some (.null, r)
            | _ => none
          else if c = 't' then
            match rest with
            | 'r' :: 'u' :: 'e' :: r => some (.bool true, r)
            | _ => none
          else if c = 'f' then
            match rest with
            | 'a' :: 'l' :: 's' :: 'e' :: r => some (.bool false, r)
            | _ => none
          else if c = '"' then
            match parseStringBody rest with
            | some (s, r) => some (.str (String.mk s), r)
            | none => none
          else if c = '[' then
            match skipWs rest with
            | ']' :: r => some (.arr [], r)
            | cs2 =>
                match parseElems fuel cs2 with
                | some (xs, r) => some (.arr xs, r)
                | none => none
          else if c = openBraceChar then
            match skipWs rest with
            | [] => none
            | d :: r =>
                if d = closeBraceChar then some (.obj [], r)
                else
                  match parseFields fuel (d :: r) with
                  | some (fs, r2) => some (.obj fs, r2)
                  | none => none
          else if c = '-' || c.isDigit then
            match parseNumber (c :: rest) with
            | some (n, r) => some (.num n, r)
            | none => none
          else none

/-- Parse the elements of a non-empty array, up to the closing bracket. -/
def parseElems : Nat → List Char → Option (List Json × List Char)
  | 0, _ => none
  | Nat.succ fuel, cs =>
      match parseVal fuel cs with
      | none => none
      | some (v, r) =>
          match skipWs r with
          | ',' :: r2 =>
              match parseElems fuel r2 with
              | some (vs, r3) => some (v :: vs, r3)
              | none => none
          | ']' :: r2 => some ([v], r2)
          | _ => none

/-- Parse the fields of a non-empty object, up to the closing brace. -/
def parseFields : Nat → List Char → Option (List (String × Json) × List Char)
  | 0, _ => none
  | Nat.succ fuel, cs =>
      match skipWs cs with
      | '"' :: r =>
          match parseStringBody r with
          | some (k, r1) =>
              match skipWs r1 with
              | ':' :: r2 =>
                  match parseVal fuel r2 with
                  | some (v, r3) =>
                      match skipWs r3 with
                      | [] => none
                      | d :: r4 =>
                          if d = ',' then
                            match parseFields fuel r4 with
                            | some (fs, r5) => some ((String.mk k, v) :: fs, r5)
                            | none => none
                          else if d = closeBraceChar then
                            some ([(String.mk k, v)], r4)
                          else none
                  | none => none
              | _ => none
          | none => none
      | _ => none

end

/-- Model of `json.Unmarshal` into `interface\x7b\x7d`: parse a full JSON
document, rejecting trailing garbage. -/
def jsonParse (s : String) : Option Json :=
  match parseVal (s.length + 1) s.toList with
  | some (v, rest) => if (skipWs rest).isEmpty then some v else none
  | none => none

/- ### Storage adapter (`internal/repository/task_audit_repository.go` and the
result / task repositories).  A GORM `Updates` with a `WHERE` clause becomes a
conditional map over the table. -/

/-- Apply `g` to every audit row satisfying `p` (a keyed `Updates`). -/
def condUpdateAudit (p : TaskAudit → Bool) (g : TaskAudit → TaskAudit)
    (l : List TaskAudit) : List TaskAudit :=
  l.map fun a => if p a then g a else a

/-- `taskAuditRepository.FindTaskAuditByTaskID`: first audit row with the
given `task_id` (`task_id` carries a unique index). -/
def findTaskAuditByTaskID (db : DB) (taskID : Nat) : Option TaskAudit :=
  db.audits.find? fun a => a.taskId == taskID

/-- The GORM zero value of a `Task`, produced by `Preload("Task")` when the
joined row is absent. -/
def zeroTask : Task := ⟨0, "", "", "", 0⟩

/-- Lookup in the `tasks` table by primary key. -/
def taskFor (db : DB) (taskID : Nat) : Option Task :=
  db.tasks.find? fun t => t.id == taskID

/-- The `audit.Task` association loaded by `Preload("Task")`. -/
def joinedTask (db : DB) (a : TaskAudit) : Task :=
  (taskFor db a.taskId).getD zeroTask

/-- `taskAuditRepository.UpdateTaskAuditCompleted`: set
`status=completed, completed_at=now, processed_by` on the row with the given
`task_id`. -/
def updateTaskAuditCompleted (db : DB) (taskID processedBy now : Nat) : DB :=
  { db with
    audits := condUpdateAudit (fun a => a.taskId == taskID)
      (fun a => { a with
        status := .completed
        completedAt := some now
        processedBy := some processedBy }) db.audits }

/-- `taskAuditRepository.UpdateTaskFailed`: set `status=failed, error_msg` on
the row with the given `task_id`; `retry_count` is untouched. -/
def updateTaskFailed (db : DB) (taskID : Nat) (errorMsg : String) : DB :=
  { db with
    audits := condUpdateAudit (fun a => a.taskId == taskID)
      (fun a => { a with status := .failed, errorMsg := errorMsg }) db.audits }

/-- `taskAuditRepository.ReclaimStaleTask`: set
`status=pending, consumed_at=NULL, error_msg, retry_count=retry_count+1` on
the row with the given `task_id`. -/
def reclaimStaleTask (db : DB) (taskID : Nat) (errorMsg : String) : DB :=
  { db with
    audits := condUpdateAudit (fun a => a.taskId == taskID)
      (fun a => { a with
        status := .pending
        consumedAt := none
        errorMsg := errorMsg
        retryCount := a.retryCount + 1 }) db.audits }

/-- The `pending` rows of the audit table. -/
def pendingAudits (db : DB) : List TaskAudit :=
  db.audits.filter fun a => decide (a.status = .pending)

/-- Sort key of the claim query: GORM `Order("published_at ASC")` followed by
`First`, which appends ordering on the primary key `id`. -/
def claimKey (a : TaskAudit) : Lex (Nat × Nat) :=
  toLex (a.publishedAt, a.id)

/-- The claim transaction's update: `status=processing, consumed_at=now` on
the selected row, keyed by the primary key of the loaded row. -/
def claimUpdatedDB (db : DB) (m : TaskAudit) (now : Nat) : DB :=
  { db with
    audits := condUpdateAudit (fun a => a.id == m.id)
      (fun a => { a with status := .processing, consumedAt := some now })
      db.audits }

/-- `taskAuditRepository.FindAndClaimPendingTask`: inside one transaction,
select the minimal pending row under the claim ordering with a row lock,
apply `claimUpdatedDB`, commit, and re-read the row by `task_id`.  Returns
the re-read row and the new store; `none` covers both the empty queue and a
failed re-read, which the service maps to the same error. -/
def findAndClaimPendingTask (db : DB) (now : Nat) : Option TaskAudit × DB :=
  match (pendingAudits db).argmin claimKey with
  | none => (none, db)
  | some m =>
      ((claimUpdatedDB db m now).audits.find? (fun a => a.taskId == m.taskId),
        claimUpdatedDB db m now)

/-- `taskAuditRepository.FindStaleTasks`: rows with `status=processing` and
`consumed_at < threshold` (a NULL `consumed_at` never satisfies the SQL
comparison). -/
def findStaleTasks (db : DB) (threshold : Nat) : List TaskAudit :=
  db.audits.filter fun a =>
    decide (a.status = .processing) &&
      (match a.consumedAt with
       | some t => decide (t < threshold)
       | none => false)

/- ### Task service (`service/task.go`).  Stateful operations return the new
store; errors are the service-level error values. -/

/-- Retry-annotated error string built by `taskService.PublishFailure`. -/
def retryErrorMsg (retryCount maxRetries : Nat) (errorMsg : String) : String :=
  "Task failed (attempt " ++ toString (retryCount + 1) ++ "/" ++
    toString (maxRetries + 1) ++ "): " ++ errorMsg ++ ". Will retry after backoff."

/-- Terminal error string built by `taskService.PublishFailure`. -/
def terminalFailMsg (maxRetries : Nat) (errorMsg : String) : String :=
  "Task failed after " ++ toString (maxRetries + 1) ++ " retries: " ++ errorMsg

/-- Terminal error string built by `taskService.ReclaimStaleTasks`. -/
def staleFailMsg (retryCount timeoutSeconds : Nat) : String :=
  "Task timed out after " ++ toString retryCount ++ " retries (exceeded " ++
    toString timeoutSeconds ++ " seconds)"

/-- Reclaim error string built by `taskService.ReclaimStaleTasks`. -/
def staleReclaimMsg (timeoutSeconds : Nat) : String :=
  "Task timed out (exceeded " ++ toString timeoutSeconds ++
    " seconds), reclaiming for retry"

/-- `taskService.PublishTask`.  The verdict of `validation.ValidateTask` is
passed in as `validationOk` because the validator consults the external
wazero engine for the entry point's signature; its pure argument checks are
modelled separately below.  On acceptance: marshal `args` to JSON text,
insert the `Task` row, then insert the matching pending `TaskAudit`. -/
def publishTask (validationOk : Bool) (db : DB) (t : DtoTask)
    (createdBy now : Nat) : DB × Except TaskError Nat :=
  if !validationOk then (db, .error .validationFailed)
  else
    let argsJSON := jsonMarshal t.args
    let taskID := db.nextTaskId
    let db1 : DB :=
      { db with
        tasks := db.tasks ++ [⟨taskID, t.wasmModule, t.func, argsJSON, createdBy⟩]
        nextTaskId := taskID + 1 }
    let audit : TaskAudit :=
      ⟨db1.nextAuditId, taskID, .pending, none, now, none, none, 0, ""⟩
    let db2 : DB :=
      { db1 with
        audits := db1.audits ++ [audit]
        nextAuditId := db1.nextAuditId + 1 }
    (db2, .ok taskID)

/-- `taskService.ConsumeTask`: claim the oldest pending audit, join its task,
decode the stored `args` JSON text, and return the task shape. -/
def consumeTask (db : DB) (now : Nat) : DB × Except TaskError DtoTask :=
  match findAndClaimPendingTask db now with
  | (none, db1) => (db1, .error .noTasksAvailable)
  | (some audit, db1) =>
      let task := joinedTask db1 audit
      if task.args == "" then
        (db1, .ok ⟨task.id, task.wasmModule, task.func, .null, task.createdBy⟩)
      else
        match jsonParse task.args with
        | none => (db1, .error .internalError)
        | some v =>
            (db1, .ok ⟨task.id, task.wasmModule, task.func, v, task.createdBy⟩)

/-- `taskService.PublishResult`: load the audit with its task; reject a
missing task or a mismatched `created_by`; otherwise mark the audit completed
and insert the `Result` row.  The compensating rollback runs only on a
storage failure of the insert, which the pure model excludes. -/
def publishResult (db : DB) (taskID createdBy processedBy : Nat)
    (result : String) (now : Nat) : DB × Option TaskError :=
  match findTaskAuditByTaskID db taskID with
  | none => (db, some .taskNotFound)
  | some audit =>
      if (joinedTask db audit).createdBy ≠ createdBy then
        (db, some .invalidCreatedBy)
      else
        let db1 := updateTaskAuditCompleted db taskID processedBy now
        let db2 : DB :=
          { db1 with
            results := db1.results ++
              [⟨db1.nextResultId, taskID, createdBy, processedBy, result, false⟩]
            nextResultId := db1.nextResultId + 1 }
        (db2, none)

/-- `taskService.PublishFailure`: load and authorize as in `publishResult`;
if `retry_count < MaxRetries` reclaim the row with the retry-annotated
message, else mark it failed with the terminal message.  `processedBy` is
accepted but, as in the source, never stored. -/
def publishFailure (maxRetries : Nat) (db : DB)
    (taskID createdBy processedBy : Nat) (errorMsg : String) :
    DB × Option TaskError :=
  match findTaskAuditByTaskID db taskID with
  | none => (db, some .taskNotFound)
  | some audit =>
      if (joinedTask db audit).createdBy ≠ createdBy then
        (db, some .invalidCreatedBy)
      else if audit.retryCount < maxRetries then
        (reclaimStaleTask db taskID
          (retryErrorMsg audit.retryCount maxRetries errorMsg), none)
      else
        (updateTaskFailed db taskID (terminalFailMsg maxRetries errorMsg), none)

/-- One iteration of the sweep loop of `taskService.ReclaimStaleTasks`:
a stale audit at or beyond `MaxRetries` is marked failed, otherwise it is
reclaimed and counted. -/
def sweepStep (maxRetries timeoutSeconds : Nat) (acc : DB × Nat)
    (a : TaskAudit) : DB × Nat :=
  if maxRetries ≤ a.retryCount then
    (updateTaskFailed acc.1 a.taskId (staleFailMsg a.retryCount timeoutSeconds),
      acc.2)
  else
    (reclaimStaleTask acc.1 a.taskId (staleReclaimMsg timeoutSeconds),
      acc.2 + 1)

/-- `taskService.ReclaimStaleTasks`: snapshot the stale rows at threshold
`now - TimeoutSeconds`, then process each row independently; returns the new
store and the count of reclaimed (not failed) rows. -/
def reclaimStaleTasks (maxRetries timeoutSeconds now : Nat) (db : DB) :
    DB × Nat :=
  (findStaleTasks db (now - timeoutSeconds)).foldl
    (sweepStep maxRetries timeoutSeconds) (db, 0)

/- ### Validator argument checks (`internal/validation`, pure part).
`validateFunctionSignature` receives the entry function's parameter types,
which the source obtains from the wazero engine; everything below the
signature lookup is pure Go code modelled here. -/

/-- WASM value types (`api.ValueType`) handled by `validateArgType`. -/
inductive ValType where
  | i32
  | i64
  | f32
  | f64
deriving DecidableEq, Repr

/-- `convertArgsToSlice`, restricted to JSON-decoded values: `nil` becomes
the empty slice, a JSON array yields its elements, and any other value is
marshalled and re-read — a non-array JSON document never re-reads as an
array, so the fallback wraps the value in a one-element slice.  (The typed
Go slice cases of the source also land in the array case after decoding.) -/
def convertArgsToSlice : Json → List Json
  | .null => []
  | .arr xs => xs
  | v => [v]

/-- Whether `s` is a syntactically valid JSON number
(`-?(0|[1-9][0-9]*)(\.[0-9]+)?([eE][+-]?[0-9]+)?`), the check
`encoding/json` applies before storing a quoted literal into a
`json.Number`. -/
def isValidJsonNumber (s : String) : Bool :=
  let cs := s.toList
  let cs1 := match cs with
    | '-' :: r => r
    | _ => cs
  let ipart : Option (List Char) :=
    match cs1 with
    | '0' :: r => some r
    | c :: _ =>
        if c.isDigit then some (spanDigits cs1).2 else none
    | [] => none
  match ipart with
  | none => false
  | some r1 =>
      let r2 : Option (List Char) :=
        match r1 with
        | '.' :: r =>
            let (fs, rr) := spanDigits r
            if fs.isEmpty then none else some rr
        | _ => some r1
      match r2 with
      | none => false
      | some r3 =>
          let r4 : Option (List Char) :=
            match r3 with
            | c :: r =>
                if c = 'e' || c = 'E' then
                  let r1 := match r with
                    | s :: rr => if s = '+' || s = '-' then rr else r
                    | [] => r
                  let (ds, rr) := spanDigits r1
                  if ds.isEmpty then none else some rr
                else some (c :: r)
            | [] => some []
          match r4 with
          | none => false
          | some rest => rest.isEmpty

/-- Whether `strconv.ParseInt(s, 10, 64)` succeeds: an optional sign, a
non-empty digit run, and a value within the `int64` range. -/
def parseInt64Ok (s : String) : Bool :=
  let cs := s.toList
  let (neg, body) : Bool × List Char :=
    match cs with
    | '-' :: r => (true, r)
    | '+' :: r => (false, r)
    | _ => (false, cs)
  let (ds, rest) := spanDigits body
  if ds.isEmpty || !rest.isEmpty then false
  else if neg then digitsVal ds ≤ 2 ^ 63 else digitsVal ds ≤ 2 ^ 63 - 1

/-- A string accepted for an integer parameter: `json.Unmarshal` of the
quoted literal into a `json.Number` succeeds and `Number.Int64` succeeds. -/
def stringIntOk (s : String) : Bool :=
  isValidJsonNumber s && parseInt64Ok s

/-- A string accepted for a float parameter: the quoted literal is a valid
JSON number (`Number.Float64` then succeeds; exponents beyond the float64
range are outside the model). -/
def stringFloatOk (s : String) : Bool :=
  isValidJsonNumber s

/-- `validateArgType`, restricted to JSON-decoded values: any JSON number is
accepted for every parameter type (the source accepts `float64` without an
integrality check); numeric strings are accepted per the integer / float
parses above; booleans, `nil`, arrays and objects are rejected. -/
def validateArgType (arg : Json) (expectedType : ValType) : Bool :=
  match expectedType with
  | .i32 | .i64 =>
      match arg with
      | .num _ => true
      | .str s => stringIntOk s
      | _ => false
  | .f32 | .f64 =>
      match arg with
      | .num _ => true
      | .str s => stringFloatOk s
      | _ => false

/-- Failure cases of `validateFunctionSignature`. -/
inductive SigError where
  | arity (expected got : Nat)
  | param (i : Nat)
deriving DecidableEq, Repr

/-- Per-position loop of `validateFunctionSignature` (the source breaks out
when the argument slice is exhausted, which the arity check precludes). -/
def checkParams : List ValType → List Json → Nat → Option SigError
  | [], _, _ => none
  | _ :: _, [], _ => none
  | p :: ps, a :: as, i =>
      if validateArgType a p then checkParams ps as (i + 1) else some (.param i)

/-- `validateFunctionSignature`: coerce `args` to a slice, compare its length
with the parameter count, then type-check each position. -/
def validateFunctionSignature (paramTypes : List ValType) (args : Json) :
    Option SigError :=
  let argsSlice := convertArgsToSlice args
  if paramTypes.length ≠ argsSlice.length then
    some (.arity paramTypes.length argsSlice.length)
  else
    checkParams paramTypes argsSlice 0

/-- The effect of one sweep iteration on the stale row it processes: the
branch of `taskService.ReclaimStaleTasks` chosen by `retry_count` versus
`MaxRetries`. -/
def sweepTransform (maxRetries timeoutSeconds : Nat) (a : TaskAudit) :
    TaskAudit :=
  if maxRetries ≤ a.retryCount then
    { a with
      status := .failed
      errorMsg := staleFailMsg a.retryCount timeoutSeconds }
  else
    { a with
      status := .pending
      consumedAt := none
      retryCount := a.retryCount + 1
      errorMsg := staleReclaimMsg timeoutSeconds }

/-- The store after the §8 scenario "exhaust retries" with `MaxRetries = 1`:
publish one task (user 1) into the empty store at instant 0, then
Claim (instant 1); PublishFailure; Claim (instant 2); PublishFailure. -/
def exhaustScenarioDB : DB :=
  (publishFailure 1
    (consumeTask
      (publishFailure 1
        (consumeTask
          (publishTask true DB.empty ⟨0, "m", "f", .null, 0⟩ 1 0).1 1).1
        1 1 2 "boom").1 2).1
    1 1 2 "boom").1

/- ### Auxiliary lemmas on keyed updates and lookups -/

/-- A lookup by `task_id` across a row transformation that preserves
`task_id` factors through the untouched table. -/
theorem find?_taskId_map (l : List TaskAudit) (f : TaskAudit → TaskAudit)
    (hf : ∀ a, (f a).taskId = a.taskId) (s : Nat) :
    (l.map f).find? (fun a => a.taskId == s) =
      (l.find? (fun a => a.taskId == s)).map f := by
  have hp : ((fun a : TaskAudit => a.taskId == s) ∘ f) =
      (fun a : TaskAudit => a.taskId == s) := by
    funext a
    simp [Function.comp, hf]
  rw [List.find?_map, hp]

/-- A `task_id`-keyed conditional update preserves `task_id` of every row. -/
theorem condUpdateAudit_taskId (t : Nat) (g : TaskAudit → TaskAudit)
    (hg : ∀ a, (g a).taskId = a.taskId) (a : TaskAudit) :
    (if a.taskId == t then g a else a).taskId = a.taskId := by
  by_cases h : a.taskId == t <;> simp [h, hg]

/-- Lookup after a `task_id`-keyed conditional update. -/
theorem find?_condUpdateAudit (l : List TaskAudit) (t s : Nat)
    (g : TaskAudit → TaskAudit) (hg : ∀ a, (g a).taskId = a.taskId) :
    (condUpdateAudit (fun a => a.taskId == t) g l).find? (fun a => a.taskId == s)
      = (l.find? (fun a => a.taskId == s)).map
          (fun a => if a.taskId == t then g a else a) := by
  unfold condUpdateAudit
  exact find?_taskId_map l _ (condUpdateAudit_taskId t g hg) s

/-- Lookup at a different key is unchanged by a `task_id`-keyed update. -/
theorem find?_condUpdateAudit_ne (l : List TaskAudit) (t s : Nat)
    (g : TaskAudit → TaskAudit) (hg : ∀ a, (g a).taskId = a.taskId)
    (hst : s ≠ t) :
    (condUpdateAudit (fun a => a.taskId == t) g l).find? (fun a => a.taskId == s)
      = l.find? (fun a => a.taskId == s) := by
  rw [find?_condUpdateAudit l t s g hg]
  cases hfind : l.find? (fun a => a.taskId == s) with
  | none => rfl
  | some a =>
      have ha : a.taskId = s := by
        have := List.find?_some hfind
        simpa using this
      simp [ha, hst]

/-- Lookup at the updated key after a `task_id`-keyed update. -/
theorem find?_condUpdateAudit_eq (l : List TaskAudit) (t : Nat)
    (g : TaskAudit → TaskAudit) (hg : ∀ a, (g a).taskId = a.taskId) :
    (condUpdateAudit (fun a => a.taskId == t) g l).find? (fun a => a.taskId == t)
      = (l.find? (fun a => a.taskId == t)).map g := by
  rw [find?_condUpdateAudit l t t g hg]
  cases hfind : l.find? (fun a => a.taskId == t) with
  | none => rfl
  | some a =>
      have ha : a.taskId = t := by
        have := List.find?_some hfind
        simpa using this
      simp [ha]

/-- Lookup at the reclaimed key after `ReclaimStaleTask`. -/
theorem findTaskAuditByTaskID_reclaimStaleTask (db : DB) (tid : Nat)
    (msg : String) :
    findTaskAuditByTaskID (reclaimStaleTask db tid msg) tid =
      (findTaskAuditByTaskID db tid).map
        (fun a => { a with
          status := .pending
          consumedAt := none
          errorMsg := msg
          retryCount := a.retryCount + 1 }) :=
  find?_condUpdateAudit_eq db.audits tid _ (fun _ => rfl)

/-- Lookup at another key is unchanged by `ReclaimStaleTask`. -/
theorem findTaskAuditByTaskID_reclaimStaleTask_ne (db : DB) (tid s : Nat)
    (msg : String) (h : s ≠ tid) :
    findTaskAuditByTaskID (reclaimStaleTask db tid msg) s =
      findTaskAuditByTaskID db s :=
  find?_condUpdateAudit_ne db.audits tid s _ (fun _ => rfl) h

/-- Lookup at the failed key after `UpdateTaskFailed`. -/
theorem findTaskAuditByTaskID_updateTaskFailed (db : DB) (tid : Nat)
    (msg : String) :
    findTaskAuditByTaskID (updateTaskFailed db tid msg) tid =
      (findTaskAuditByTaskID db tid).map
        (fun a => { a with status := .failed, errorMsg := msg }) :=
  find?_condUpdateAudit_eq db.audits tid _ (fun _ => rfl)

/-- Lookup at another key is unchanged by `UpdateTaskFailed`. -/
theorem findTaskAuditByTaskID_updateTaskFailed_ne (db : DB) (tid s : Nat)
    (msg : String) (h : s ≠ tid) :
    findTaskAuditByTaskID (updateTaskFailed db tid msg) s =
      findTaskAuditByTaskID db s :=
  find?_condUpdateAudit_ne db.audits tid s _ (fun _ => rfl) h

/-- Lookup at the completed key after `UpdateTaskAuditCompleted`. -/
theorem findTaskAuditByTaskID_updateCompleted (db : DB)
    (tid processedBy now : Nat) :
    findTaskAuditByTaskID (updateTaskAuditCompleted db tid processedBy now) tid =
      (findTaskAuditByTaskID db tid).map
        (fun a => { a with
          status := .completed
          completedAt := some now
          processedBy := some processedBy }) :=
  find?_condUpdateAudit_eq db.audits tid _ (fun _ => rfl)

/-- In a table whose `task_id` column is duplicate-free, lookup by the
`task_id` of a member returns exactly that member. -/
theorem find?_key_of_mem_nodup (l : List TaskAudit) (a : TaskAudit)
    (ha : a ∈ l) (hnd : (l.map (fun x => x.taskId)).Nodup) :
    l.find? (fun x => x.taskId == a.taskId) = some a := by
  induction l with
  | nil => cases ha
  | cons b rest ih =>
      rcases List.mem_cons.mp ha with rfl | hmem
      · exact List.find?_cons_of_pos rest (by simp)
      · have hnd' : (∀ x ∈ rest, ¬x.taskId = b.taskId) ∧
            (rest.map (fun x => x.taskId)).Nodup := by simpa using hnd
        have hne : b.taskId ≠ a.taskId := fun h => hnd'.1 a hmem h.symm
        rw [List.find?_cons_of_neg rest (by simpa using hne)]
        exact ih hmem hnd'.2

/- ### The reclaim sweep as a pointwise transformation -/

/-- A fold of sweep steps over rows whose `task_id`s all differ from `t`
leaves the lookup at `t` unchanged. -/
theorem sweep_foldl_preserve (mr ts : Nat) (L : List TaskAudit) (db : DB)
    (c t : Nat) (h : ∀ x ∈ L, x.taskId ≠ t) :
    findTaskAuditByTaskID ((L.foldl (sweepStep mr ts) (db, c)).1) t =
      findTaskAuditByTaskID db t := by
  induction L generalizing db c with
  | nil => rfl
  | cons b rest ih =>
      have hb : t ≠ b.taskId :=
        fun he => h b (List.mem_cons_self b rest) he.symm
      have hrest : ∀ x ∈ rest, x.taskId ≠ t :=
        fun x hx => h x (List.mem_cons_of_mem b hx)
      rw [List.foldl_cons]
      by_cases hc : mr ≤ b.retryCount
      · rw [show sweepStep mr ts (db, c) b =
            (updateTaskFailed db b.taskId (staleFailMsg b.retryCount ts), c) from
            by simp [sweepStep, hc]]
        rw [ih _ _ hrest]
        exact findTaskAuditByTaskID_updateTaskFailed_ne db b.taskId t _ hb
      · rw [show sweepStep mr ts (db, c) b =
            (reclaimStaleTask db b.taskId (staleReclaimMsg ts), c + 1) from
            by simp [sweepStep, hc]]
        rw [ih _ _ hrest]
        exact findTaskAuditByTaskID_reclaimStaleTask_ne db b.taskId t _ hb

/-- Folding the sweep step over a snapshot with duplicate-free `task_id`s,
each of whose rows is still stored intact, rewrites each snapshot row by
`sweepTransform`. -/
theorem sweep_foldl_spec (mr ts : Nat) (L : List TaskAudit) :
    ∀ (db : DB) (c : Nat),
      (L.map fun x => x.taskId).Nodup →
      (∀ x ∈ L, findTaskAuditByTaskID db x.taskId = some x) →
      ∀ a ∈ L,
        findTaskAuditByTaskID ((L.foldl (sweepStep mr ts) (db, c)).1) a.taskId
          = some (sweepTransform mr ts a) := by
  induction L with
  | nil =>
      intro db c _ _ a ha
      cases ha
  | cons b rest ih =>
      intro db c hnd hall a ha
      have hnd' : (∀ x ∈ rest, ¬x.taskId = b.taskId) ∧
          (rest.map fun x => x.taskId).Nodup := by simpa using hnd
      have hfb : findTaskAuditByTaskID db b.taskId = some b :=
        hall b (List.mem_cons_self b rest)
      rw [List.foldl_cons]
      by_cases hc : mr ≤ b.retryCount
      · rw [show sweepStep mr ts (db, c) b =
            (updateTaskFailed db b.taskId (staleFailMsg b.retryCount ts), c) from
            by simp [sweepStep, hc]]
        rcases List.mem_cons.mp ha with rfl | hmem
        · rw [sweep_foldl_preserve mr ts rest _ c a.taskId
            (fun x hx => hnd'.1 x hx)]
          rw [findTaskAuditByTaskID_updateTaskFailed, hfb]
          simp [sweepTransform, hc]
        · apply ih _ c hnd'.2 _ a hmem
          intro x hx
          rw [findTaskAuditByTaskID_updateTaskFailed_ne db b.taskId x.taskId _
            (hnd'.1 x hx)]
          exact hall x (List.mem_cons_of_mem b hx)
      · rw [show sweepStep mr ts (db, c) b =
            (reclaimStaleTask db b.taskId (staleReclaimMsg ts), c + 1) from
            by simp [sweepStep, hc]]
        rcases List.mem_cons.mp ha with rfl | hmem
        · rw [sweep_foldl_preserve mr ts rest _ (c + 1) a.taskId
            (fun x hx => hnd'.1 x hx)]
          rw [findTaskAuditByTaskID_reclaimStaleTask, hfb]
          simp [sweepTransform, hc]
        · apply ih _ (c + 1) hnd'.2 _ a hmem
          intro x hx
          rw [findTaskAuditByTaskID_reclaimStaleTask_ne db b.taskId x.taskId _
            (hnd'.1 x hx)]
          exact hall x (List.mem_cons_of_mem b hx)

/-- The stale snapshot of a duplicate-free audit table has duplicate-free
`task_id`s and every snapshot row is stored intact. -/
theorem findStaleTasks_intact (db : DB) (θ : Nat)
    (hnd : (db.audits.map fun x => x.taskId).Nodup) :
    ((findStaleTasks db θ).map fun x => x.taskId).Nodup ∧
      ∀ x ∈ findStaleTasks db θ, findTaskAuditByTaskID db x.taskId = some x := by
  constructor
  · exact ((List.filter_sublist db.audits).map _).nodup hnd
  · intro x hx
    exact find?_key_of_mem_nodup db.audits x (List.mem_of_mem_filter hx) hnd

/- ### Claims about the validator's argument handling -/

/-- C8.  Validation of a publish request with `args = null` succeeds if and
only if the declared entry function has arity 0: a null `args` is coerced to
the empty argument sequence, and the arity check compares its length 0
against the function's parameter count. -/
theorem null_args_validates_iff_arity_zero (paramTypes : List ValType) :
    convertArgsToSlice .null = [] ∧
      (validateFunctionSignature paramTypes .null = none ↔
        paramTypes.length = 0) := by
  refine ⟨rfl, ?_⟩
  by_cases h : paramTypes.length = 0
  · have hnil : paramTypes = [] := List.length_eq_zero.mp h
    subst hnil
    simp [validateFunctionSignature, convertArgsToSlice, checkParams]
  · simp [validateFunctionSignature, convertArgsToSlice, h]

/-- C9.  A non-null `args` value that is not an array is not rejected for its
shape: `convertArgsToSlice` coerces it to the one-element sequence `[args]`,
so it validates exactly when the function has one parameter and the value
passes that parameter's type check. -/
theorem scalar_args_coerced_to_singleton (args : Json)
    (paramTypes : List ValType) (hnull : args ≠ .null)
    (harr : ∀ xs, args ≠ .arr xs) :
    convertArgsToSlice args = [args] ∧
      (validateFunctionSignature paramTypes args = none ↔
        ∃ p, paramTypes = [p] ∧ validateArgType args p = true) := by
  have hconv : convertArgsToSlice args = [args] := by
    cases args with
    | null => exact absurd rfl hnull
    | arr xs => exact absurd rfl (harr xs)
    | bool b => rfl
    | num n => rfl
    | str s => rfl
    | obj fs => rfl
  refine ⟨hconv, ?_⟩
  match paramTypes with
  | [] =>
      simp [validateFunctionSignature, hconv]
  | [p] =>
      by_cases hv : validateArgType args p
      · simp [validateFunctionSignature, hconv, checkParams, hv]
      · simp [validateFunctionSignature, hconv, checkParams, hv]
  | p :: q :: rest =>
      have hlen : (p :: q :: rest).length ≠ 1 := by simp
      simp only [validateFunctionSignature, hconv]
      constructor
      · intro h
        simp at h
      · rintro ⟨p', hp', _⟩
        simp at hp'

/-- Witness for C9 at a bare number against a one-parameter `i32` function. -/
theorem scalar_args_coerced_to_singleton_witness :
    convertArgsToSlice (.num 5) = [.num 5] ∧
      (validateFunctionSignature [.i32] (.num 5) = none ↔
        ∃ p, [ValType.i32] = [p] ∧ validateArgType (.num 5) p = true) :=
  scalar_args_coerced_to_singleton (.num 5) [.i32]
    (fun h => Json.noConfusion h) (fun _ h => Json.noConfusion h)

/- ### Claims about `PublishResult` and `PublishFailure` -/

/-- C6.  When the loaded audit's task exists but its `created_by` differs
from the caller-asserted one, `PublishResult` returns `InvalidCreatedBy` and
performs no state change: the returned store is the input store, so the audit
keeps its status and no `Result` row is created. -/
theorem publishResult_invalidCreatedBy_no_change (db : DB)
    (taskID createdBy processedBy : Nat) (result : String) (now : Nat)
    (a : TaskAudit) (t : Task)
    (hfind : findTaskAuditByTaskID db taskID = some a)
    (htask : taskFor db a.taskId = some t)
    (hcb : t.createdBy ≠ createdBy) :
    publishResult db taskID createdBy processedBy result now =
      (db, some .invalidCreatedBy) := by
  simp [publishResult, hfind, joinedTask, htask, hcb]

/-- Witness for C6: a claimed audit whose publisher is user 1, completion
asserted by user 2. -/
theorem publishResult_invalidCreatedBy_no_change_witness :
    publishResult
      ⟨[⟨1, "m", "f", "null", 1⟩],
       [⟨1, 1, .processing, none, 0, some 1, none, 0, ""⟩], [], 2, 2, 1⟩
      1 2 3 "r" 5 =
      (⟨[⟨1, "m", "f", "null", 1⟩],
        [⟨1, 1, .processing, none, 0, some 1, none, 0, ""⟩], [], 2, 2, 1⟩,
       some .invalidCreatedBy) :=
  publishResult_invalidCreatedBy_no_change _ 1 2 3 "r" 5
    ⟨1, 1, .processing, none, 0, some 1, none, 0, ""⟩ ⟨1, "m", "f", "null", 1⟩
    (by decide) (by decide) (by decide)

/-- C4.  For an audit with `retry_count < MaxRetries` whose task exists and
whose `created_by` matches, `PublishFailure` reclaims the row: it returns no
error, and the audit becomes `pending` with `consumed_at` cleared,
`retry_count` incremented, and the retry-annotated error string with
`N = retry_count+1` and `M = MaxRetries+1`. -/
theorem publishFailure_below_max_reclaims (maxRetries : Nat) (db : DB)
    (taskID createdBy processedBy : Nat) (errorMsg : String)
    (a : TaskAudit) (t : Task)
    (hfind : findTaskAuditByTaskID db taskID = some a)
    (htask : taskFor db a.taskId = some t)
    (hcb : t.createdBy = createdBy)
    (hretry : a.retryCount < maxRetries) :
    (publishFailure maxRetries db taskID createdBy processedBy errorMsg).2 =
      none ∧
    findTaskAuditByTaskID
        (publishFailure maxRetries db taskID createdBy processedBy errorMsg).1
        taskID =
      some { a with
        status := .pending
        consumedAt := none
        retryCount := a.retryCount + 1
        errorMsg := "Task failed (attempt " ++ toString (a.retryCount + 1) ++
          "/" ++ toString (maxRetries + 1) ++ "): " ++ errorMsg ++
          ". Will retry after backoff." } := by
  have hout : publishFailure maxRetries db taskID createdBy processedBy errorMsg
      = (reclaimStaleTask db taskID
          (retryErrorMsg a.retryCount maxRetries errorMsg), none) := by
    simp [publishFailure, hfind, joinedTask, htask, hcb, hretry]
  refine ⟨by rw [hout], ?_⟩
  rw [hout]
  show findTaskAuditByTaskID
      (reclaimStaleTask db taskID (retryErrorMsg a.retryCount maxRetries errorMsg))
      taskID = _
  rw [findTaskAuditByTaskID_reclaimStaleTask, hfind]
  rfl

/-- Witness for C4: a processing audit with `retry_count = 0` and
`MaxRetries = 3`. -/
theorem publishFailure_below_max_reclaims_witness :
    (publishFailure 3
        ⟨[⟨1, "m", "f", "null", 1⟩],
         [⟨1, 1, .processing, none, 0, some 2, none, 0, ""⟩], [], 2, 2, 1⟩
        1 1 2 "boom").2 = none ∧
    findTaskAuditByTaskID
        (publishFailure 3
          ⟨[⟨1, "m", "f", "null", 1⟩],
           [⟨1, 1, .processing, none, 0, some 2, none, 0, ""⟩], [], 2, 2, 1⟩
          1 1 2 "boom").1 1 =
      some { (⟨1, 1, .processing, none, 0, some 2, none, 0, ""⟩ : TaskAudit) with
        status := .pending
        consumedAt := none
        retryCount := 0 + 1
        errorMsg := "Task failed (attempt " ++ toString (0 + 1) ++ "/" ++
          toString (3 + 1) ++ "): " ++ "boom" ++
          ". Will retry after backoff." } :=
  publishFailure_below_max_reclaims 3 _ 1 1 2 "boom"
    ⟨1, 1, .processing, none, 0, some 2, none, 0, ""⟩ ⟨1, "m", "f", "null", 1⟩
    (by decide) (by decide) (by decide) (by decide)

/-- C10.  `PublishResult` imposes no precondition on the audit's status: for
an audit still `pending` whose task's `created_by` matches, it succeeds,
marks the audit `completed` with `completed_at` and `processed_by` set, and
appends a `Result` row — a task can go from `pending` to `completed` without
ever being claimed. -/
theorem publishResult_pending_completes (db : DB)
    (taskID createdBy processedBy : Nat) (result : String) (now : Nat)
    (a : TaskAudit) (t : Task)
    (hfind : findTaskAuditByTaskID db taskID = some a)
    (hpending : a.status = .pending)
    (htask : taskFor db a.taskId = some t)
    (hcb : t.createdBy = createdBy) :
    ∃ db', publishResult db taskID createdBy processedBy result now =
        (db', none) ∧
      findTaskAuditByTaskID db' taskID =
        some { a with
          status := .completed
          completedAt := some now
          processedBy := some processedBy } ∧
      db'.results = db.results ++
        [⟨db.nextResultId, taskID, createdBy, processedBy, result, false⟩] := by
  have hout : publishResult db taskID createdBy processedBy result now =
      ({ updateTaskAuditCompleted db taskID processedBy now with
          results := db.results ++
            [⟨db.nextResultId, taskID, createdBy, processedBy, result, false⟩]
          nextResultId := db.nextResultId + 1 }, none) := by
    simp [publishResult, hfind, joinedTask, htask, hcb]
    exact ⟨rfl, rfl⟩
  refine ⟨_, hout, ?_, rfl⟩
  show findTaskAuditByTaskID
      (updateTaskAuditCompleted db taskID processedBy now) taskID = _
  rw [findTaskAuditByTaskID_updateCompleted, hfind]
  rfl

/-- C5.  During the reclaim sweep, every stale audit with
`retry_count ≥ MaxRetries` becomes `failed` with the timeout message built
from its own `retry_count` and the configured timeout, and every stale audit
with `retry_count < MaxRetries` becomes `pending` with `consumed_at` cleared
and `retry_count` incremented; in particular a stale audit at exactly
`MaxRetries` transitions to `failed`. -/
theorem reclaim_sweep_stale_branches (maxRetries timeoutSeconds now : Nat)
    (db : DB) (a : TaskAudit)
    (hnd : (db.audits.map fun x => x.taskId).Nodup)
    (ha : a ∈ findStaleTasks db (now - timeoutSeconds)) :
    findTaskAuditByTaskID
        (reclaimStaleTasks maxRetries timeoutSeconds now db).1 a.taskId =
      some (if maxRetries ≤ a.retryCount then
        { a with
          status := .failed
          errorMsg := "Task timed out after " ++ toString a.retryCount ++
            " retries (exceeded " ++ toString timeoutSeconds ++ " seconds)" }
      else
        { a with
          status := .pending
          consumedAt := none
          retryCount := a.retryCount + 1
          errorMsg := "Task timed out (exceeded " ++ toString timeoutSeconds ++
            " seconds), reclaiming for retry" }) := by
  obtain ⟨hndL, hall⟩ := findStaleTasks_intact db (now - timeoutSeconds) hnd
  have hspec := sweep_foldl_spec maxRetries timeoutSeconds
    (findStaleTasks db (now - timeoutSeconds)) db 0 hndL hall a ha
  show findTaskAuditByTaskID
      ((findStaleTasks db (now - timeoutSeconds)).foldl
        (sweepStep maxRetries timeoutSeconds) (db, 0)).1 a.taskId = _
  rw [hspec]
  by_cases hc : maxRetries ≤ a.retryCount <;>
    simp [sweepTransform, staleFailMsg, staleReclaimMsg, hc]

/-- Witness for C5: one stale processing audit at `retry_count = MaxRetries`
(timeout 30, claimed at instant 0, swept at instant 100) is marked failed. -/
theorem reclaim_sweep_stale_branches_witness :
    ((⟨[⟨1, "m", "f", "null", 1⟩],
       [⟨1, 1, .processing, none, 0, some 0, none, 2, ""⟩], [], 2, 2, 1⟩ :
        DB).audits.map (fun x => x.taskId)).Nodup ∧
    findTaskAuditByTaskID
        (reclaimStaleTasks 2 30 100
          ⟨[⟨1, "m", "f", "null", 1⟩],
           [⟨1, 1, .processing, none, 0, some 0, none, 2, ""⟩], [], 2, 2, 1⟩).1 1 =
      some (if 2 ≤ 2 then
        { (⟨1, 1, .processing, none, 0, some 0, none, 2, ""⟩ : TaskAudit) with
          status := .failed
          errorMsg := "Task timed out after " ++ toString 2 ++
            " retries (exceeded " ++ toString 30 ++ " seconds)" }
      else
        { (⟨1, 1, .processing, none, 0, some 0, none, 2, ""⟩ : TaskAudit) with
          status := .pending
          consumedAt := none
          retryCount := 2 + 1
          errorMsg := "Task timed out (exceeded " ++ toString 30 ++
            " seconds), reclaiming for retry" }) :=
  ⟨by decide,
   reclaim_sweep_stale_branches 2 30 100 _
     ⟨1, 1, .processing, none, 0, some 0, none, 2, ""⟩
     (by decide) (by decide)⟩

/-- C3.  The claim query selects exactly the pending audit that is oldest by
`published_at` ascending, ties resolved in favour of the smallest `task_id`
(the query orders by `published_at` and then by the primary key, whose order
agrees with `task_id` order in every reachable store — the `horder`
hypothesis); the selected row is updated to `processing` with `consumed_at`
set and `processed_by` left unset. -/
theorem claim_selects_oldest_pending (db : DB) (now : Nat)
    (ret : TaskAudit) (db' : DB)
    (hids : (db.audits.map fun x => x.id).Nodup)
    (htids : (db.audits.map fun x => x.taskId).Nodup)
    (horder : ∀ a ∈ db.audits, ∀ b ∈ db.audits,
      (a.id < b.id ↔ a.taskId < b.taskId))
    (hpb : ∀ a ∈ db.audits, a.status = .pending → a.processedBy = none)
    (hclaim : findAndClaimPendingTask db now = (some ret, db')) :
    ∃ m ∈ db.audits,
      m.status = .pending ∧
      (∀ b ∈ db.audits, b.status = .pending → b ≠ m →
        m.publishedAt < b.publishedAt ∨
          (m.publishedAt = b.publishedAt ∧ m.taskId < b.taskId)) ∧
      ret = { m with status := .processing, consumedAt := some now } ∧
      ret.processedBy = none ∧
      findTaskAuditByTaskID db' m.taskId = some ret := by
  unfold findAndClaimPendingTask at hclaim
  cases harg : (pendingAudits db).argmin claimKey with
  | none =>
      rw [harg] at hclaim
      simp at hclaim
  | some m =>
      rw [harg] at hclaim
      rw [Prod.mk.injEq] at hclaim
      obtain ⟨hret, hdb'⟩ := hclaim
      have hmem : m ∈ pendingAudits db := List.argmin_mem harg
      obtain ⟨hmdb, hmpend'⟩ := List.mem_filter.mp hmem
      have hmpend : m.status = .pending := of_decide_eq_true hmpend'
      have hfind0 : db.audits.find? (fun a => a.taskId == m.taskId) = some m :=
        find?_key_of_mem_nodup db.audits m hmdb htids
      have hreload : (claimUpdatedDB db m now).audits.find?
          (fun a => a.taskId == m.taskId) =
          some { m with status := .processing, consumedAt := some now } := by
        show (condUpdateAudit _ _ db.audits).find? _ = _
        unfold condUpdateAudit
        rw [find?_taskId_map db.audits
          (fun a => if a.id == m.id then
            { a with status := .processing, consumedAt := some now } else a)
          (fun a => by by_cases h : a.id == m.id <;> simp [h]) m.taskId]
        rw [hfind0]
        simp
      have hreteq : ret =
          { m with status := .processing, consumedAt := some now } :=
        Option.some.inj (hret.symm.trans hreload)
      have hmin : ∀ b ∈ db.audits, b.status = .pending → b ≠ m →
          m.publishedAt < b.publishedAt ∨
            (m.publishedAt = b.publishedAt ∧ m.taskId < b.taskId) := by
        intro b hb hbpend hbm
        have hbP : b ∈ pendingAudits db :=
          List.mem_filter.mpr ⟨hb, decide_eq_true hbpend⟩
        have hle : claimKey m ≤ claimKey b := List.le_of_mem_argmin hbP harg
        rcases (Prod.Lex.le_iff (m.publishedAt, m.id) (b.publishedAt, b.id)).mp
            hle with h | ⟨heq, hidle⟩
        · exact Or.inl h
        · refine Or.inr ⟨heq, ?_⟩
          have hidne : m.id ≠ b.id := by
            intro h
            exact hbm (List.inj_on_of_nodup_map hids hb hmdb h.symm)
          exact (horder m hmdb b hb).mp (lt_of_le_of_ne hidle hidne)
      refine ⟨m, hmdb, hmpend, hmin, hreteq, ?_, ?_⟩
      · rw [hreteq]
        show m.processedBy = none
        exact hpb m hmdb hmpend
      · show findTaskAuditByTaskID db' m.taskId = some ret
        rw [← hdb']
        exact hret

/-- Witness for C3: two pending audits with equal `published_at`; the one
with the smaller `task_id` is selected even though it is listed second. -/
theorem claim_selects_oldest_pending_witness :
    ∃ m ∈ ([⟨2, 2, .pending, none, 5, none, none, 0, ""⟩,
            ⟨1, 1, .pending, none, 5, none, none, 0, ""⟩] : List TaskAudit),
      m.status = .pending ∧
      (∀ b ∈ ([⟨2, 2, .pending, none, 5, none, none, 0, ""⟩,
               ⟨1, 1, .pending, none, 5, none, none, 0, ""⟩] : List TaskAudit),
        b.status = .pending → b ≠ m →
        m.publishedAt < b.publishedAt ∨
          (m.publishedAt = b.publishedAt ∧ m.taskId < b.taskId)) ∧
      (⟨1, 1, .processing, none, 5, some 9, none, 0, ""⟩ : TaskAudit) =
        { m with status := .processing, consumedAt := some 9 } ∧
      (⟨1, 1, .processing, none, 5, some 9, none, 0, ""⟩ : TaskAudit).processedBy
        = none ∧
      findTaskAuditByTaskID
        ⟨[⟨1, "m", "f", "null", 1⟩, ⟨2, "m", "g", "null", 1⟩],
         [⟨2, 2, .pending, none, 5, none, none, 0, ""⟩,
          ⟨1, 1, .processing, none, 5, some 9, none, 0, ""⟩], [], 3, 3, 1⟩
        m.taskId =
        some ⟨1, 1, .processing, none, 5, some 9, none, 0, ""⟩ :=
  claim_selects_oldest_pending
    ⟨[⟨1, "m", "f", "null", 1⟩, ⟨2, "m", "g", "null", 1⟩],
     [⟨2, 2, .pending, none, 5, none, none, 0, ""⟩,
      ⟨1, 1, .pending, none, 5, none, none, 0, ""⟩], [], 3, 3, 1⟩
    9 ⟨1, 1, .processing, none, 5, some 9, none, 0, ""⟩
    ⟨[⟨1, "m", "f", "null", 1⟩, ⟨2, "m", "g", "null", 1⟩],
     [⟨2, 2, .pending, none, 5, none, none, 0, ""⟩,
      ⟨1, 1, .processing, none, 5, some 9, none, 0, ""⟩], [], 3, 3, 1⟩
    (by decide) (by decide) (by decide) (by decide) (by decide)

/-- Counterexample to C2 as stated: after Publish; Claim; Fail; Claim; Fail
with `MaxRetries = 1` the audit's `retry_count` is 1, not 2 —
`UpdateTaskFailed` preserves `retry_count`, and only the single reclaim
incremented it. -/
theorem exhaust_retries_retry_count_not_two :
    (findTaskAuditByTaskID exhaustScenarioDB 1).map (fun a => a.retryCount) ≠
        some 2 ∧
      (findTaskAuditByTaskID exhaustScenarioDB 1).map (fun a => a.retryCount) =
        some 1 := by
  exact ⟨by decide, by decide⟩

/-- C2 as amended.  With `MaxRetries = 1`, the sequence Publish; Claim;
PublishFailure; Claim; PublishFailure leaves the audit with
`status = failed` and `retry_count = 1`, with `error_msg` containing
`"after 2 retries"`, and no `Result` row exists for the task. -/
theorem exhaust_retries_final_state :
    findTaskAuditByTaskID exhaustScenarioDB 1 =
        some ⟨1, 1, .failed, none, 0, some 2, none, 1,
          "Task failed after 2 retries: boom"⟩ ∧
      (∃ pre post, "Task failed after 2 retries: boom" =
        pre ++ "after 2 retries" ++ post) ∧
      exhaustScenarioDB.results = [] := by
  refine ⟨by decide, ⟨"Task failed ", ": boom", by decide⟩, by decide⟩

/-- C7.  Round trip: a task accepted by `PublishTask` and immediately
claimed by `ConsumeTask` (no other pending audit in the store) comes back
with the same `wasm_module`, `func` and `created_by`, and with `args` equal
to the published `args` after the JSON-serialize-then-deserialize round
trip (`hparse` names the round-tripped value). -/
theorem publish_then_consume_roundtrip (db : DB) (t : DtoTask)
    (createdBy now later : Nat) (v : Json)
    (hnp : ∀ a ∈ db.audits, a.status ≠ .pending)
    (hfreshT : ∀ a ∈ db.audits, a.taskId ≠ db.nextTaskId)
    (hfreshTask : ∀ x ∈ db.tasks, x.id ≠ db.nextTaskId)
    (hparse : jsonParse (jsonMarshal t.args) = some v) :
    (publishTask true db t createdBy now).2 = .ok db.nextTaskId ∧
    (consumeTask (publishTask true db t createdBy now).1 later).2 =
      .ok ⟨db.nextTaskId, t.wasmModule, t.func, v, createdBy⟩ := by
  refine ⟨rfl, ?_⟩
  have hpub : (publishTask true db t createdBy now).1 =
      { db with
        tasks := db.tasks ++
          [⟨db.nextTaskId, t.wasmModule, t.func, jsonMarshal t.args, createdBy⟩]
        audits := db.audits ++
          [⟨db.nextAuditId, db.nextTaskId, .pending, none, now, none, none, 0, ""⟩]
        nextTaskId := db.nextTaskId + 1
        nextAuditId := db.nextAuditId + 1 } := rfl
  rw [hpub]
  have hnil : db.audits.filter (fun a => decide (a.status = .pending)) = [] :=
    List.filter_eq_nil_iff.mpr (fun a ha => by simpa using hnp a ha)
  have hsel : (pendingAudits
      { db with
        tasks := db.tasks ++
          [⟨db.nextTaskId, t.wasmModule, t.func, jsonMarshal t.args, createdBy⟩]
        audits := db.audits ++
          [⟨db.nextAuditId, db.nextTaskId, .pending, none, now, none, none, 0, ""⟩]
        nextTaskId := db.nextTaskId + 1
        nextAuditId := db.nextAuditId + 1 }).argmin claimKey =
      some ⟨db.nextAuditId, db.nextTaskId, .pending, none, now, none, none, 0, ""⟩ := by
    show ((db.audits ++ _).filter _).argmin claimKey = _
    rw [List.filter_append, hnil]
    rfl
  have hfindold : db.audits.find? (fun a => a.taskId == db.nextTaskId) = none :=
    List.find?_eq_none.mpr (fun x hx => by simpa using hfreshT x hx)
  have hfindnew : (db.audits ++
      [(⟨db.nextAuditId, db.nextTaskId, .pending, none, now, none, none, 0, ""⟩ :
        TaskAudit)]).find? (fun a => a.taskId == db.nextTaskId) =
      some ⟨db.nextAuditId, db.nextTaskId, .pending, none, now, none, none, 0, ""⟩ := by
    rw [List.find?_append, hfindold]
    simp
  have hclaim : findAndClaimPendingTask
      { db with
        tasks := db.tasks ++
          [⟨db.nextTaskId, t.wasmModule, t.func, jsonMarshal t.args, createdBy⟩]
        audits := db.audits ++
          [⟨db.nextAuditId, db.nextTaskId, .pending, none, now, none, none, 0, ""⟩]
        nextTaskId := db.nextTaskId + 1
        nextAuditId := db.nextAuditId + 1 } later =
      (some ⟨db.nextAuditId, db.nextTaskId, .processing, none, now, some later,
        none, 0, ""⟩,
       claimUpdatedDB
        { db with
          tasks := db.tasks ++
            [⟨db.nextTaskId, t.wasmModule, t.func, jsonMarshal t.args, createdBy⟩]
          audits := db.audits ++
            [⟨db.nextAuditId, db.nextTaskId, .pending, none, now, none, none, 0, ""⟩]
          nextTaskId := db.nextTaskId + 1
          nextAuditId := db.nextAuditId + 1 }
        ⟨db.nextAuditId, db.nextTaskId, .pending, none, now, none, none, 0, ""⟩
        later) := by
    unfold findAndClaimPendingTask
    rw [hsel]
    rw [Prod.mk.injEq]
    refine ⟨?_, rfl⟩
    show (condUpdateAudit _ _ _).find? _ = _
    unfold condUpdateAudit
    rw [find?_taskId_map _
      (fun a => if a.id ==
          (⟨db.nextAuditId, db.nextTaskId, .pending, none, now, none, none, 0, ""⟩ :
            TaskAudit).id then
        { a with status := .processing, consumedAt := some later } else a)
      (fun a => by
        by_cases h : a.id ==
          (⟨db.nextAuditId, db.nextTaskId, .pending, none, now, none, none, 0, ""⟩ :
            TaskAudit).id <;> simp [h])]
    show ((db.audits ++ _).find? (fun a => a.taskId == db.nextTaskId)).map _ = _
    rw [hfindnew]
    simp
  rw [show consumeTask
      { db with
        tasks := db.tasks ++
          [⟨db.nextTaskId, t.wasmModule, t.func, jsonMarshal t.args, createdBy⟩]
        audits := db.audits ++
          [⟨db.nextAuditId, db.nextTaskId, .pending, none, now, none, none, 0, ""⟩]
        nextTaskId := db.nextTaskId + 1
        nextAuditId := db.nextAuditId + 1 } later =
      consumeTask _ later from rfl]
  unfold consumeTask
  rw [hclaim]
  have htask : taskFor
      (claimUpdatedDB
        { db with
          tasks := db.tasks ++
            [⟨db.nextTaskId, t.wasmModule, t.func, jsonMarshal t.args, createdBy⟩]
          audits := db.audits ++
            [⟨db.nextAuditId, db.nextTaskId, .pending, none, now, none, none, 0, ""⟩]
          nextTaskId := db.nextTaskId + 1
          nextAuditId := db.nextAuditId + 1 }
        ⟨db.nextAuditId, db.nextTaskId, .pending, none, now, none, none, 0, ""⟩
        later)
      db.nextTaskId =
      some ⟨db.nextTaskId, t.wasmModule, t.func, jsonMarshal t.args, createdBy⟩ := by
    show (db.tasks ++ _).find? (fun x => x.id == db.nextTaskId) = _
    rw [List.find?_append,
      List.find?_eq_none.mpr (fun x hx => by simpa using hfreshTask x hx)]
    simp
  have hargs : jsonMarshal t.args ≠ "" := by
    intro h
    rw [h] at hparse
    exact Option.noConfusion hparse
  simp only [joinedTask, htask, Option.getD_some]
  rw [if_neg (by simpa using hargs)]
  rw [hparse]

/-- Witness for C7: the module `"m"`, function `"add"`, args `[2, 3]`
published by user 1 into the empty store at instant 0 and claimed at
instant 1. -/
theorem publish_then_consume_roundtrip_witness :
    (publishTask true DB.empty ⟨0, "m", "add", .arr [.num 2, .num 3], 0⟩ 1 0).2 =
        .ok DB.empty.nextTaskId ∧
      (consumeTask
        (publishTask true DB.empty ⟨0, "m", "add", .arr [.num 2, .num 3], 0⟩ 1 0).1
        1).2 =
      .ok ⟨DB.empty.nextTaskId, "m", "add", .arr [.num 2, .num 3], 1⟩ :=
  publish_then_consume_roundtrip DB.empty ⟨0, "m", "add", .arr [.num 2, .num 3], 0⟩
    1 0 1 (.arr [.num 2, .num 3])
    (fun a ha => absurd ha (List.not_mem_nil a))
    (fun a ha => absurd ha (List.not_mem_nil a))
    (fun x hx => absurd hx (List.not_mem_nil x))
    rfl

/-- Counterexample to C1 as stated: an audit in the terminal status `failed`
whose task still exists is moved to `completed` by a later `PublishResult`
with a matching `created_by` — the code guards on existence and
`created_by` only, never on the current status. -/
theorem terminal_status_overwritten_by_publishResult :
    (⟨[⟨1, "m", "f", "null", 1⟩],
      [⟨1, 1, .failed, none, 0, none, none, 0, "dead"⟩], [], 2, 2, 1⟩ :
        DB).audits = [⟨1, 1, .failed, none, 0, none, none, 0, "dead"⟩] ∧
    (publishResult
        ⟨[⟨1, "m", "f", "null", 1⟩],
         [⟨1, 1, .failed, none, 0, none, none, 0, "dead"⟩], [], 2, 2, 1⟩
        1 1 2 "\"r\"" 9).2 = none ∧
    ((findTaskAuditByTaskID
        (publishResult
          ⟨[⟨1, "m", "f", "null", 1⟩],
           [⟨1, 1, .failed, none, 0, none, none, 0, "dead"⟩], [], 2, 2, 1⟩
          1 1 2 "\"r\"" 9).1 1).map (fun x => x.status)) = some .completed ∧
    some TaskStatus.completed ≠ some TaskStatus.failed := by
  refine ⟨rfl, rfl, ?_, by decide⟩
  decide

/-- C1 as amended.  Once a task's audit is terminal (`completed` or
`failed`), the reclaim sweep never changes it: the sweep selects only
`processing` rows, so a terminal row survives any sweep unchanged.
(`PublishResult` and `PublishFailure`, by contrast, check only task
existence and `created_by`, so they can still rewrite a terminal status —
see the counterexample.) -/
theorem reclaim_sweep_preserves_terminal (maxRetries timeoutSeconds now : Nat)
    (db : DB) (a : TaskAudit)
    (hnd : (db.audits.map fun x => x.taskId).Nodup)
    (ha : a ∈ db.audits)
    (hterm : a.status = .completed ∨ a.status = .failed) :
    findTaskAuditByTaskID
        (reclaimStaleTasks maxRetries timeoutSeconds now db).1 a.taskId =
      some a := by
  have hfind := find?_key_of_mem_nodup db.audits a ha hnd
  have hne : ∀ x ∈ findStaleTasks db (now - timeoutSeconds), x.taskId ≠ a.taskId := by
    intro x hx he
    have hxmem := List.mem_of_mem_filter hx
    have hpred := (List.mem_filter.mp hx).2
    have hproc : x.status = .processing :=
      of_decide_eq_true ((Bool.and_eq_true _ _) ▸ hpred).1
    have hxa : x = a := List.inj_on_of_nodup_map hnd hxmem ha he
    rcases hterm with h | h <;> rw [hxa, h] at hproc <;> cases hproc
  show findTaskAuditByTaskID
      ((findStaleTasks db (now - timeoutSeconds)).foldl
        (sweepStep maxRetries timeoutSeconds) (db, 0)).1 a.taskId = _
  rw [sweep_foldl_preserve maxRetries timeoutSeconds _ db 0 a.taskId hne]
  exact hfind

/-- Witness for the amended C1: a completed audit survives a sweep that
reclaims a stale sibling. -/
theorem reclaim_sweep_preserves_terminal_witness :
    findTaskAuditByTaskID
        (reclaimStaleTasks 3 30 100
          ⟨[⟨1, "m", "f", "null", 1⟩, ⟨2, "m", "g", "null", 1⟩],
           [⟨1, 1, .completed, some 2, 0, some 1, some 2, 0, ""⟩,
            ⟨2, 2, .processing, none, 0, some 0, none, 0, ""⟩], [], 3, 3, 1⟩).1 1 =
      some ⟨1, 1, .completed, some 2, 0, some 1, some 2, 0, ""⟩ :=
  reclaim_sweep_preserves_terminal 3 30 100 _
    ⟨1, 1, .completed, some 2, 0, some 1, some 2, 0, ""⟩
    (by decide) (by decide) (Or.inl rfl)

/-- Witness for C10: a never-claimed pending audit completed directly. -/
theorem publishResult_pending_completes_witness :
    ∃ db', publishResult
        ⟨[⟨1, "m", "f", "null", 1⟩],
         [⟨1, 1, .pending, none, 0, none, none, 0, ""⟩], [], 2, 2, 1⟩
        1 1 2 "\"ok\"" 7 = (db', none) ∧
      findTaskAuditByTaskID db' 1 =
        some { (⟨1, 1, .pending, none, 0, none, none, 0, ""⟩ : TaskAudit) with
          status := .completed
          completedAt := some 7
          processedBy := some 2 } ∧
      db'.results = [] ++ [⟨1, 1, 1, 2, "\"ok\"", false⟩] :=
  publishResult_pending_completes _ 1 1 2 "\"ok\"" 7
    ⟨1, 1, .pending, none, 0, none, none, 0, ""⟩ ⟨1, "m", "f", "null", 1⟩
    (by decide) (by decide) (by decide) (by decide)

end Rainchanel
